import Mathlib

/-!
# Verification of the ogma compiler front-end against its specification

Shallow embedding of the parts of the `ogma` repository relevant to the
frozen claims: the error substrate (`common/err.rs`), the block finalisation
protocol (`eng/blk.rs`) and the pipeline intrinsics
(`lang/impls/intrinsics/pipeline.rs`).

Conventions:
* Rust `String`/`&str` slices that are inspected byte-wise are modelled as
  `List Char` together with UTF-8 byte arithmetic via `Char.utf8Size`;
  strings that are only concatenated are modelled as Lean `String`.
* Rust `f64` (the `Number` newtype) is modelled as `ℚ`: every finite float
  is a rational, and the claims only exercise exact comparisons and the
  rendering of integral values.  `NaN` is not modelled.
* Fallible Rust functions returning `Result` are modelled with `Except`.
* Types that live outside the provided sources (AST tags, `Value`,
  `Table`, the locals graph, `Argument`) are modelled from the spec; each
  such definition carries a doc comment saying so.
-/

-- ===== Source locations and tags (spec §3, §6) ==============================

/-- Modelled from the spec: `anchor` of a `Tag` is either `Shell` or a named
file (`common::ast::Location`, outside the provided sources). -/
inductive Location where
  | shell
  | file (name : String)
deriving DecidableEq, Repr

/-- Rendering of a `Location`, as used by the error printer
(`--> shell:3` in the unit tests of `common/err.rs`). -/
def Location.render : Location → String
  | .shell => "shell"
  | .file n => n

/-- UTF-8 byte length of a character list. -/
def utf8Len (l : List Char) : Nat := l.foldr (fun c n => c.utf8Size + n) 0

/-- Modelled from the spec: a `Tag` is `(anchor, line, start, end)` with a
byte-offset half-open span into the full source `line`
(`lang::syntax::ast::Tag`, outside the provided sources). -/
structure Tag where
  anchor : Location := .shell
  line : List Char := []
  start : Nat := 0
  end_ : Nat := 0
deriving DecidableEq, Repr

instance : Inhabited Tag := ⟨{}⟩

/-- Drop the first `n` bytes of a character list (UTF-8 byte offsets).
Models Rust byte-slicing `&s[n..]` for boundary offsets `n`. -/
def byteDrop : List Char → Nat → List Char
  | l, 0 => l
  | [], _ => []
  | c :: rest, n => byteDrop rest (n - c.utf8Size)

/-- Take the longest prefix of a character list that fits in `n` bytes.
Models Rust byte-slicing `&s[..n]` for boundary offsets `n`. -/
def byteTake : List Char → Nat → List Char
  | _, 0 => []
  | [], _ => []
  | c :: rest, n => if c.utf8Size ≤ n then c :: byteTake rest (n - c.utf8Size) else []

/-- `Tag::str()`: the text of the tag's span within its line. -/
def Tag.str (t : Tag) : String := (byteTake (byteDrop t.line t.start) (t.end_ - t.start)).asString

/-- `Tag::len()`: the byte length of the span. -/
def Tag.len (t : Tag) : Nat := t.end_ - t.start

-- ===== Types and values (spec §3) ===========================================

/-- Modelled from the spec: nominal types.  Built-ins `Nil, Bool, Num, Str,
Tab, TabRow` plus user `Def` types (identified here by name, the only part
of `TypeDef` the claims observe). -/
inductive Ty where
  | nil
  | bool
  | num
  | str
  | tab
  | tabRow
  | def_ (name : String)
deriving DecidableEq, Repr

/-- Modelled from the spec: the external `::table::Table` ("dense
column-major matrix of entries with a header row").  The intrinsics in
scope only observe the row and column counts. -/
structure Table where
  rows_len : Nat
  cols_len : Nat
deriving DecidableEq, Repr

/-- Modelled from the spec: runtime values — "Tagged union of `Nil`, `Bool`,
`Num` (IEEE-754 double, modelled as ℚ), `Str`, `Table`, `TableRow` (a
reference into a table carrying `idx`), `OgmaData`".  The column cache of a
`TableRow` and the payload of `OgmaData` are carried but never inspected by
the claims. -/
inductive Value where
  | nil
  | bool (b : Bool)
  | num (q : ℚ)
  | str (s : List Char)
  | tab (t : Table)
  | tabRow (t : Table) (idx : Nat)
  | data (tyName : String) (variant : Option String) (fields : List Value)

/-- `Value::ty()`: the type of a value. -/
def Value.ty : Value → Ty
  | .nil => .nil
  | .bool _ => .bool
  | .num _ => .num
  | .str _ => .str
  | .tab _ => .tab
  | .tabRow _ _ => .tabRow
  | .data n _ _ => .def_ n

-- ===== Error substrate (src/ogma/src/common/err.rs) =========================

/-- Error categories (`err.rs`, `enum Category`). -/
inductive Category where
  | Internal
  | Parsing
  | UnknownCommand
  | Semantics
  | Type
  | Evaluation
  | Definitions
  | Help
deriving DecidableEq, Repr

instance : Inhabited Category := ⟨.Internal⟩

/-- A single trace item for error messages (`err.rs`, `struct Trace`).
`source` is inspected byte-wise by the renderer, hence `List Char`. -/
structure Trace where
  loc : Location := .shell
  source : List Char := []
  desc : Option String := none
  start : Nat := 0
  len : Nat := 0
deriving DecidableEq, Repr

instance : Inhabited Trace := ⟨{}⟩

/-- The ubiquitous error (`err.rs`, `struct Error`).  `hard = true` flags
that the error should propagate immediately out of the compiling loop. -/
structure Error where
  cat : Category := .Internal
  desc : String := ""
  traces : List Trace := []
  help_msg : Option String := none
  hard : Bool := false
deriving DecidableEq, Repr

instance : Inhabited Error := ⟨{}⟩

/-- `Trace::from_tag` (`err.rs`). -/
def Trace.from_tag (tag : Tag) (desc : Option String) : Trace :=
  { loc := tag.anchor
    source := tag.line
    desc := desc
    start := tag.start
    len := tag.len }

/-- `err::trace`: a single-trace vector from a tag (`err.rs`). -/
def trace (tag : Tag) (desc : Option String) : List Trace := [Trace.from_tag tag desc]

/-- Strip every trailing occurrence of the two characters `", "` from a
reversed character list; helper for `trim_end_matches(", ")`. -/
def trimCommaSpaceRev : List Char → List Char
  | ' ' :: ',' :: r => trimCommaSpaceRev r
  | r => r

/-- Rust `s.trim_end_matches(", ")`, specialised to the delimiter used by
`Error::unused_flags`. -/
def trimEndCommaSpace (s : String) : String :=
  ((trimCommaSpaceRev s.data.reverse).reverse).asString

/-- `Error::unused_flags` (`err.rs` lines 272–295).  The argument is the
flag stack in its `Vec` order; the source folds over the reversed
iterator. -/
def Error.unused_flags (flags : List Tag) : Error :=
  let folded := flags.reverse.foldl
    (fun (acc : String × List Trace) flag =>
      (acc.1 ++ "`" ++ flag.str ++ "`" ++ ", ",
       acc.2 ++ [Trace.from_tag flag (some "flag not supported")]))
    ("not expecting flags: ", [])
  { cat := .Semantics
    desc := trimEndCommaSpace folded.1
    traces := folded.2
    help_msg := some "try using the `--help` flag to view requirements"
    hard := true }

/-- The tag-merging `reduce` of `Error::unused_args`: keep the first tag,
widening its span to the min start / max end over all tags. -/
def mergeTags : List Tag → Tag
  | [] => {}
  | t :: ts => ts.foldl (fun a b => { a with start := min a.start b.start, end_ := max a.end_ b.end_ }) t

/-- `Error::unused_args` (`err.rs` lines 297–322).  Note: the constructor
uses `..Self::default()`, so `hard` is **false**. -/
def Error.unused_args (args : List Tag) : Error :=
  let msg := if args.length = 1 then "this argument is unnecessary" else "these arguments are unnecessary"
  { cat := .Semantics
    desc := "too many arguments supplied"
    traces := trace (mergeTags args) (some msg) }

/-- `Error::insufficient_args` (`err.rs`), without the optional signature
(every call site in the provided sources passes `None`). -/
def Error.insufficient_args (block_tag : Tag) (args_count : Nat) : Error :=
  { cat := .Semantics
    desc := "expecting more than " ++ toString args_count ++ " arguments"
    traces := trace block_tag (some "expecting additional argument(s)")
    help_msg := some "try using the `--help` flag to view requirements"
    hard := true }

/-- `Error::unexp_arg_variant` (`err.rs` lines 324–338). -/
def Error.unexp_arg_variant (tag : Tag) (variant : String) : Error :=
  { cat := .Semantics
    desc := "not expecting argument variant `" ++ variant ++ "`"
    traces := trace tag (some ("argument variant `" ++ variant ++ "` is not supported here"))
    help_msg := some "commands may require specific argument types, use `--help` to view requirements"
    hard := true }

/-- `Error::eval` (`err.rs` lines 401–414). -/
def Error.eval (tag : Tag) (desc : String) (short_desc : Option String) (help : Option String) : Error :=
  { cat := .Evaluation
    desc := desc
    traces := trace tag short_desc
    help_msg := help }

/-- Modelled from the spec: the `Display` rendering of a `Type`
(`lang/types`, outside the provided sources); the spec's sample errors show
`Number` and `String`, user types print their name. -/
def Ty.render : Ty → String
  | .nil => "Nil"
  | .bool => "Bool"
  | .num => "Number"
  | .str => "String"
  | .tab => "Table"
  | .tabRow => "TableRow"
  | .def_ n => n

/-- `Error::conversion_failed` (`err.rs` lines 426–436). -/
def Error.conversion_failed (exp : Ty) (found : Ty) : Error :=
  { cat := .Evaluation
    desc := "converting value into `" ++ exp.render ++ "` failed, value has type `" ++ found.render ++ "`"
    help_msg := some "this is an internal bug, please report it at <https://github.com/kdr-aus/ogma/issues>" }

/-- `Error::internal_err_help` (`err.rs`); the runtime backtrace is not
representable, the textual preamble is kept. -/
def Error.internal_err_help : Option String :=
  some "this is an internal bug, please report it at <https://github.com/kdr-aus/ogma/issues>"

/-- `Error::update_locals_graph` (`err.rs` lines 545–553): the soft internal
error signalling "re-run after my pushed change is applied". -/
def Error.update_locals_graph (tag : Tag) : Error :=
  { cat := .Internal
    desc := "the locals graph has been changed and needs updating"
    traces := trace tag none
    help_msg := Error.internal_err_help }

/-- `Error::wrong_op_input_type` (`err.rs` lines 606–617). -/
def Error.wrong_op_input_type (ty : Ty) (op : Tag) : Error :=
  { cat := .Semantics
    desc := "`" ++ op.str ++ "` does not support `" ++ ty.render ++ "` input data"
    traces := trace op none
    help_msg := some ("use `" ++ op.str ++ " --help` to view requirements. consider implementing `def " ++ op.str ++ "`")
    hard := true }

/-- `Error::unknown_arg_output_type` (`err.rs` lines 628–635). -/
def Error.unknown_arg_output_type (arg : Tag) : Error :=
  { cat := .Semantics
    desc := "unable to infer argument's output type"
    traces := trace arg none }

/-- `Error::unexp_arg_input_ty` (`err.rs` lines 637–647). -/
def Error.unexp_arg_input_ty (exp : Ty) (found : Ty) (arg : Tag) : Error :=
  { cat := .Semantics
    desc := "expecting argument to take input type `" ++ exp.render ++ "`, accepts `" ++ found.render ++ "`"
    traces := trace arg (some ("this argument accepts type `" ++ found.render ++ "`")) }

/-- `Error::unexp_arg_output_ty` (`err.rs` lines 649–663). -/
def Error.unexp_arg_output_ty (exp : Ty) (found : Ty) (arg : Tag) : Error :=
  { cat := .Semantics
    desc := "expecting argument with output type `" ++ exp.render ++ "`, found `" ++ found.render ++ "`"
    traces := trace arg (some ("this argument returns type `" ++ found.render ++ "`"))
    help_msg := some "commands may require specific argument types, use `--help` to view requirements" }

-- ===== C1: hardness of unused_args / unused_flags ===========================

/-- **C1 counterexample.**  The claim says every error constructed by
`Error::unused_args` has `hard = true`; but `unused_args` is built with
`..Self::default()`, so at any concrete argument list it is soft. -/
theorem C1_unused_args_not_hard :
    (Error.unused_args [{ line := "x".data, start := 0, end_ := 1 }]).hard = false := rfl

/-- **C1 (amended).**  Every error constructed by `Error::unused_flags` has
`hard = true` and propagates immediately; every error constructed by
`Error::unused_args` has `hard = false` (it is a soft error, only surfaced
when the inference fixed point stalls). -/
theorem C1_unused_flags_hard_unused_args_soft (flags args : List Tag) :
    (Error.unused_flags flags).hard = true ∧ (Error.unused_args args).hard = false :=
  ⟨rfl, rfl⟩

-- ===== trace_code_lines (err.rs lines 804–840) ==============================

/-- Rust `char::is_whitespace` (the Unicode `White_Space` property). -/
def rustIsWhitespace (c : Char) : Bool :=
  (0x9 ≤ c.val && c.val ≤ 0xD) || c.val == 0x20 || c.val == 0x85 || c.val == 0xA0 ||
  c.val == 0x1680 || (0x2000 ≤ c.val && c.val ≤ 0x200A) || c.val == 0x2028 ||
  c.val == 0x2029 || c.val == 0x202F || c.val == 0x205F || c.val == 0x3000

/-- Rust `str::trim_end()`: drop trailing whitespace characters. -/
def trimEnd (l : List Char) : List Char := (l.reverse.dropWhile rustIsWhitespace).reverse

/-- Strip one trailing `'\r'`, as `str::lines()` does to each piece
(`LinesMap` = `split_terminator('\n')` + `strip_suffix('\r')`). -/
def stripCR (l : List Char) : List Char :=
  match l.reverse with
  | c :: r => if c = '\r' then r.reverse else l
  | [] => l

/-- One emitted line entry: `(content, byte start offset, byte end offset)`.
The end offset excludes the line terminator (and a stripped `'\r'`). -/
def mkLineEntry (ls : Nat) (acc : List Char) : List Char × Nat × Nat :=
  let l := stripCR acc
  (l, ls, ls + utf8Len l)

/-- Worker for `linesWithOffsets`: `rest` is the unprocessed code, `ls` the
byte offset of the current line's start, `cur` the current byte offset and
`acc` the characters of the current line so far. -/
def linesGo : List Char → Nat → Nat → List Char → List (List Char × Nat × Nat)
  | [], ls, _, acc => if acc.isEmpty then [] else [mkLineEntry ls acc]
  | c :: rest, ls, cur, acc =>
    if c = '\n' then mkLineEntry ls acc :: linesGo rest (cur + 1) (cur + 1) []
    else linesGo rest ls (cur + c.utf8Size) (acc ++ [c])

/-- Rust `code.lines()` together with the byte offsets the source recovers
via pointer arithmetic (`line.as_ptr().offset_from(code.as_ptr())`): each
line of `code` with its byte span `[offset_start, offset_end)`. -/
def linesWithOffsets (code : List Char) : List (List Char × Nat × Nat) := linesGo code 0 0 []

/-- `tabsize` closure of `trace_code_lines`: tabs render 4 wide. -/
def tabsize (c : Char) : Nat := if c = '\t' then 4 else 1

/-- Tab-expanded (tab = width 4) character width, the
`.chars().map(tabsize).sum()` of the source. -/
def width (l : List Char) : Nat := (l.map tabsize).sum

/-- The filter condition of the `trace_code_lines` loop: a line is skipped
iff `offset_end < start || offset_start >= end`. -/
def keepLine (s e : Nat) (x : List Char × Nat × Nat) : Bool :=
  !(decide (x.2.2 < s) || decide (x.2.1 ≥ e))

/-- The per-line column computation of `trace_code_lines` (the body of the
loop after the skip test), for a line `(line, offset_start, offset_end)`. -/
def colsOf (s e : Nat) : List Char × Nat × Nat → List Char × Nat × Nat
  | (line, offs, offe) =>
    let sC : Nat :=
      if offs ≤ s then width (byteTake line (s - offs))
      else width (line.takeWhile rustIsWhitespace)
    let eC : Nat :=
      if offe ≥ e then width (byteTake line (e - offs))
      else if offe = s then sC + 1
      else width (trimEnd line)
    (line, sC, eC)

/-- One loop iteration of `trace_code_lines`: `none` when the line is
skipped, otherwise the pushed `(line, start col, end col)` entry. -/
def lineCols (s e : Nat) (x : List Char × Nat × Nat) : Option (List Char × Nat × Nat) :=
  if keepLine s e x then some (colsOf s e x) else none

/-- `trace_code_lines` (`err.rs` lines 804–840): the lines intersecting the
`start`/`end` byte positions, each with its visible character range. -/
def trace_code_lines (code : List Char) (s e : Nat) : List (List Char × Nat × Nat) :=
  (linesWithOffsets code).filterMap (lineCols s e)

/-- Tab-expanded width of the code text between byte offsets `a ≤ b`. -/
def sliceWidth (code : List Char) (a b : Nat) : Nat := width (byteTake (byteDrop code a) (b - a))

/-- The lines whose half-open byte span `[offset_start, offset_end)`
intersects `[s, e)` — the selection the claim asserts. -/
def intersectingLines (code : List Char) (s e : Nat) : List (List Char × Nat × Nat) :=
  (linesWithOffsets code).filter (fun x => decide (x.2.1 < e) && decide (s < x.2.2))

/-- Claim C3, stated the way the spec words it, as a decidable predicate at
one input: `trace_code_lines code s e` returns exactly the lines whose byte
span intersects `[s, e)`; the first returned line's start column is the
tab-expanded width of the code text from that line's start up to `s`; the
last returned line's end column is the tab-expanded width of the code text
from that line's start up to `e`. -/
def traceLinesClaim (code : List Char) (s e : Nat) : Bool :=
  let T := trace_code_lines code s e
  let F := intersectingLines code s e
  decide (T.map Prod.fst = F.map Prod.fst) &&
  (match T.head?, F.head? with
   | some (_, c1, _), some (_, a, _) => decide (c1 = sliceWidth code a s)
   | _, _ => true) &&
  (match T.getLast?, F.getLast? with
   | some (_, _, c2), some (_, a, _) => decide (c2 = sliceWidth code a e)
   | _, _ => true)

theorem utf8Len_append (a b : List Char) : utf8Len (a ++ b) = utf8Len a + utf8Len b := by
  induction a with
  | nil => simp [utf8Len]
  | cons c a ih => simp [utf8Len, List.foldr] at ih ⊢; omega

theorem byteDrop_append (p q : List Char) : byteDrop (p ++ q) (utf8Len p) = q := by
  induction p with
  | nil => simp [utf8Len, byteDrop]
  | cons c p ih =>
    have hsz := Char.utf8Size_pos c
    have h1 : utf8Len (c :: p) = (c.utf8Size + utf8Len p - 1) + 1 := by
      simp [utf8Len, List.foldr]; omega
    rw [List.cons_append, h1]
    show byteDrop (p ++ q) ((c.utf8Size + utf8Len p - 1) + 1 - c.utf8Size) = q
    have h2 : (c.utf8Size + utf8Len p - 1) + 1 - c.utf8Size = utf8Len p := by omega
    rw [h2]; exact ih

theorem byteTake_append_le (p q : List Char) (n : Nat) (h : n ≤ utf8Len p) :
    byteTake (p ++ q) n = byteTake p n := by
  induction p generalizing n with
  | nil =>
    have : n = 0 := by simpa [utf8Len] using h
    subst this; simp [byteTake]
  | cons c p ih =>
    cases n with
    | zero => rfl
    | succ m =>
      have hlen : utf8Len (c :: p) = c.utf8Size + utf8Len p := by simp [utf8Len, List.foldr]
      rw [List.cons_append]
      show (if c.utf8Size ≤ m + 1 then c :: byteTake (p ++ q) (m + 1 - c.utf8Size) else []) =
        (if c.utf8Size ≤ m + 1 then c :: byteTake p (m + 1 - c.utf8Size) else [])
      by_cases hc : c.utf8Size ≤ m + 1
      · simp only [if_pos hc]
        rw [ih (m + 1 - c.utf8Size) (by omega)]
      · simp only [if_neg hc]

theorem stripCR_spec (l : List Char) : l = stripCR l ∨ l = stripCR l ++ ['\x0d'] := by
  cases h : l.reverse with
  | nil => left; simp [stripCR, h]
  | cons c r =>
    by_cases hc : c = '\x0d'
    · right
      have hs : stripCR l = r.reverse := by simp [stripCR, h, hc]
      rw [hs, ← hc, ← List.reverse_cons, ← h, List.reverse_reverse]
    · left
      have hs : stripCR l = l := by simp [stripCR, h, hc]
      rw [hs]

theorem filterMap_ite (l : List α) (p : α → Bool) (g : α → β) :
    l.filterMap (fun x => if p x then some (g x) else none) = (l.filter p).map g := by
  induction l with
  | nil => rfl
  | cons a l ih =>
    by_cases ha : p a <;> simp [List.filterMap_cons, List.filter_cons, ha, ih]

theorem trace_code_lines_eq (code : List Char) (s e : Nat) :
    trace_code_lines code s e
      = ((linesWithOffsets code).filter (keepLine s e)).map (colsOf s e) :=
  filterMap_ite (linesWithOffsets code) (keepLine s e) (colsOf s e)

theorem keepLine_eq (s e : Nat) (x : List Char × Nat × Nat) :
    keepLine s e x = (decide (s ≤ x.2.2) && decide (x.2.1 < e)) := by
  obtain ⟨l, a, b⟩ := x
  by_cases h1 : b < s <;> by_cases h2 : a ≥ e <;>
    first
      | (simp [keepLine, h1, h2]; omega)
      | simp [keepLine, h1, h2]

theorem linesGo_spec (code : List Char) :
    ∀ (rest pre acc : List Char), code = pre ++ (acc ++ rest) →
    ∀ x ∈ linesGo rest (utf8Len pre) (utf8Len pre + utf8Len acc) acc,
    ∃ sfx, byteDrop code x.2.1 = x.1 ++ sfx ∧ x.2.2 = x.2.1 + utf8Len x.1 := by
  intro rest
  induction rest with
  | nil =>
    intro pre acc hcode x hx
    by_cases hacc : acc.isEmpty
    · simp [linesGo, hacc] at hx
    · simp [linesGo, hacc, mkLineEntry] at hx
      subst hx
      rcases stripCR_spec acc with hs | hs
      · refine ⟨[], ?_, rfl⟩
        simp only [hcode, byteDrop_append]
        simp [← hs]
      · refine ⟨['\x0d'], ?_, rfl⟩
        simp only [hcode, byteDrop_append]
        simp [← hs]
  | cons c rest ih =>
    intro pre acc hcode x hx
    by_cases hc : c = '\n'
    · subst hc
      simp only [linesGo, if_pos rfl] at hx
      rcases List.mem_cons.mp hx with hx | hx
      · subst hx
        rcases stripCR_spec acc with hs | hs
        · refine ⟨'\n' :: rest, ?_, rfl⟩
          simp only [mkLineEntry, hcode, byteDrop_append]
          simp [← hs]
        · refine ⟨'\x0d' :: '\n' :: rest, ?_, rfl⟩
          simp only [mkLineEntry, hcode, byteDrop_append]
          conv_lhs => rw [hs]
          simp
      · have hpre : utf8Len (pre ++ (acc ++ ['\n'])) = utf8Len pre + utf8Len acc + 1 := by
          rw [utf8Len_append, utf8Len_append]
          have : utf8Len ['\n'] = 1 := rfl
          omega
        have hcode' : code = (pre ++ (acc ++ ['\n'])) ++ ([] ++ rest) := by
          simp [hcode]
        have := ih (pre ++ (acc ++ ['\n'])) [] hcode' x
        rw [hpre] at this
        exact this (by simpa [utf8Len] using hx)
    · simp only [linesGo, if_neg hc] at hx
      have hcode' : code = pre ++ ((acc ++ [c]) ++ rest) := by simp [hcode]
      have := ih pre (acc ++ [c]) hcode' x
      rw [utf8Len_append] at this
      have hone : utf8Len [c] = c.utf8Size := by simp [utf8Len]
      rw [hone] at this
      exact this (by rw [Nat.add_assoc] at hx; exact hx)

theorem linesWithOffsets_spec (code : List Char) (x : List Char × Nat × Nat)
    (hx : x ∈ linesWithOffsets code) :
    ∃ sfx, byteDrop code x.2.1 = x.1 ++ sfx ∧ x.2.2 = x.2.1 + utf8Len x.1 := by
  have := linesGo_spec code code [] [] (by simp) x
  exact this (by simpa [utf8Len] using hx)

theorem head?_some_mem {l : List α} {a : α} (h : l.head? = some a) : a ∈ l := by
  cases l with
  | nil => simp at h
  | cons x xs => simp at h; simp [h]

theorem getLast?_some_mem {l : List α} {a : α} (h : l.getLast? = some a) : a ∈ l := by
  induction l with
  | nil => simp at h
  | cons x xs ih =>
    cases hxs : xs with
    | nil => subst hxs; simp at h; simp [h]
    | cons y ys =>
      subst hxs
      rw [List.getLast?_cons_cons] at h
      exact List.mem_cons_of_mem x (ih h)

theorem colsOf_fst (s e : Nat) (x : List Char × Nat × Nat) : (colsOf s e x).1 = x.1 := by
  obtain ⟨l, a, b⟩ := x; rfl

/-- **C3 counterexample.**  At `code = "ab\ncd"`, `s = 0 ≤ e = 3` the claim
fails: the only returned line is `"ab"` with reported end column `2`
(`trim_end` width), while the claim's "tab-expanded width of the text from
that line's start up to `e`" is `3` (it crosses the newline). -/
theorem C3_traceLinesClaim_false : traceLinesClaim "ab\ncd".data 0 3 = false := by decide

/-- **C3 (amended).**  `trace_code_lines(code, s, e)` returns exactly the
lines of `code` whose **closed** byte span `[line_start, line_end]` meets
`[s, e)` (that is, `s ≤ line_end` and `line_start < e`; a line whose end
touches `s` is also kept); for the first returned line, **provided its
start is at or before `s`**, the reported visible start column is the
tab-expanded (tab = width 4) width of the code text from that line's start
up to `s`; for the last returned line, **provided its end is at or after
`e`**, the reported visible end column is the tab-expanded width of the
code text from that line's start up to `e`. -/
theorem C3_trace_code_lines_amended (code : List Char) (s e : Nat) :
    ((trace_code_lines code s e).map Prod.fst
      = ((linesWithOffsets code).filter
          (fun x => decide (s ≤ x.2.2) && decide (x.2.1 < e))).map Prod.fst)
    ∧ (∀ l c1 c2 l' a b,
        (trace_code_lines code s e).head? = some (l, c1, c2) →
        ((linesWithOffsets code).filter
          (fun x => decide (s ≤ x.2.2) && decide (x.2.1 < e))).head? = some (l', a, b) →
        a ≤ s → c1 = sliceWidth code a s)
    ∧ (∀ l c1 c2 l' a b,
        (trace_code_lines code s e).getLast? = some (l, c1, c2) →
        ((linesWithOffsets code).filter
          (fun x => decide (s ≤ x.2.2) && decide (x.2.1 < e))).getLast? = some (l', a, b) →
        e ≤ b → c2 = sliceWidth code a e) := by
  have hfilter : (linesWithOffsets code).filter (keepLine s e)
      = (linesWithOffsets code).filter (fun x => decide (s ≤ x.2.2) && decide (x.2.1 < e)) :=
    List.filter_congr (fun x _ => keepLine_eq s e x)
  have htrace := trace_code_lines_eq code s e
  refine ⟨?_, ?_, ?_⟩
  · rw [htrace, hfilter, List.map_map]
    exact List.map_congr_left (fun x _ => colsOf_fst s e x)
  · intro l c1 c2 l' a b hT hF has
    rw [← hfilter] at hF
    rw [htrace, List.head?_map, hF, Option.map_some'] at hT
    have hx := Option.some.inj hT
    have hmem := head?_some_mem hF
    have hkeep := List.of_mem_filter hmem
    rw [keepLine_eq] at hkeep
    simp only [Bool.and_eq_true, decide_eq_true_eq] at hkeep
    have hsb : s ≤ b := hkeep.1
    obtain ⟨sfx, hdrop, hlen⟩ := linesWithOffsets_spec code (l', a, b) (List.mem_of_mem_filter hmem)
    simp only at hdrop hlen
    simp only [colsOf, if_pos has] at hx
    have hc1 : c1 = width (byteTake l' (s - a)) :=
      (congrArg (fun p : List Char × Nat × Nat => p.2.1) hx).symm
    rw [hc1]
    unfold sliceWidth
    rw [hdrop, byteTake_append_le l' sfx (s - a) (by omega)]
  · intro l c1 c2 l' a b hT hF heb
    rw [← hfilter] at hF
    rw [htrace, List.getLast?_map, hF, Option.map_some'] at hT
    have hx := Option.some.inj hT
    have hmem := getLast?_some_mem hF
    obtain ⟨sfx, hdrop, hlen⟩ := linesWithOffsets_spec code (l', a, b) (List.mem_of_mem_filter hmem)
    simp only at hdrop hlen
    have hbe : b ≥ e := heb
    simp only [colsOf, if_pos hbe] at hx
    have hc2 : c2 = width (byteTake l' (e - a)) :=
      (congrArg (fun p : List Char × Nat × Nat => p.2.2) hx).symm
    rw [hc2]
    unfold sliceWidth
    rw [hdrop, byteTake_append_le l' sfx (e - a) (by omega)]

/-- Witness for C3 (amended): at `code = "Hello\nWorld"`, `s = 7`, `e = 9`
the second line is returned with visible columns `(1, 3)`, matching the
tab-expanded slice widths. -/
theorem C3_trace_code_lines_amended_witness :
    (1 : Nat) = sliceWidth "Hello\nWorld".data 6 7 ∧
    (3 : Nat) = sliceWidth "Hello\nWorld".data 6 9 :=
  ⟨(C3_trace_code_lines_amended "Hello\nWorld".data 7 9).2.1
      "World".data 1 3 "World".data 6 11 (by decide) (by decide) (by decide),
   (C3_trace_code_lines_amended "Hello\nWorld".data 7 9).2.2
      "World".data 1 3 "World".data 6 11 (by decide) (by decide) (by decide)⟩

-- ===== Evaluation model: environments, contexts, steps (spec §3, §4.5) ======

/-- Modelled from the spec: the `Environment` maps variable handles to
values. -/
def Env := List (Nat × Value)

/-- Modelled from the spec: the evaluation `Context`; only the environment
is observed by the claims (root/working dir and progress sink are
dropped). -/
structure Context where
  env : Env

/-- `Context::done` / `done_o`: finish a step with a value and the
context's environment. -/
def Context.done (cx : Context) (v : Value) : Except Error (Value × Env) := .ok (v, cx.env)

/-- A compiled step (spec §3): output type plus evaluation function. -/
structure Step where
  out_ty : Ty
  f : Value → Context → Except Error (Value × Env)

/-- Modelled from the spec: a variable handle.  `noop` is
`Variable::noop`; `bound` is a live binding into the locals graph. -/
inductive Variable where
  | noop (tag : Tag) (ty : Ty)
  | bound (id : Nat) (ty : Ty) (tag : Tag)

/-- The declared type of a variable handle. -/
def Variable.ty : Variable → Ty
  | .noop _ t => t
  | .bound _ t _ => t

/-- Modelled from the spec: `Variable::set_data` writes into the
environment; a `noop` variable discards the write, so its binding is never
visible to any reader. -/
def Variable.set_data (v : Variable) (env : Env) (val : Value) : Env :=
  match v with
  | .noop _ _ => env
  | .bound id _ _ => (id, val) :: env

/-- A proposed change to the type/locals graphs (spec §3: "Changes are
`KnownInput(node, ty)` / `KnownOutput(node, ty)` / `AddVar(node, var)`"). -/
inductive Chg where
  | knownInput (node : Nat) (ty : Ty)
  | knownOutput (node : Nat) (ty : Ty)
  | addVar (scope : Nat) (name : String) (ty : Ty) (tag : Tag)

-- ===== AST graph (spec §3, §4.1) ============================================

/-- An AST node (spec §3): `Op`, `Expr`, `Ident`, `Num`, `Var`, `Pound`,
`Flag`, `Intrinsic`, `Def`. -/
inductive AstNode where
  | ident (tag : Tag)
  | num (val : ℚ) (tag : Tag)
  | expr (tag : Tag)
  | var (tag : Tag)
  | pound (ch : Char) (tag : Tag)
  | op (name_tag : Tag) (blk_tag : Tag)
  | intrinsic (tag : Tag)
  | def_ (tag : Tag)
  | flag (tag : Tag)

/-- The source tag of a node (`AstNode::tag`); for an `Op` node the block
tag spans the whole block. -/
def AstNode.tag : AstNode → Tag
  | .ident t => t
  | .num _ t => t
  | .expr t => t
  | .var t => t
  | .pound _ t => t
  | .op _ blk => blk
  | .intrinsic t => t
  | .def_ t => t
  | .flag t => t

/-- Is the node a `Var`? -/
def AstNode.isVarNode : AstNode → Bool
  | .var _ => true
  | _ => false

/-- Is the node one of the argument variants (`Ident`, `Num`, `Expr`,
`Var`, `Pound`)?  `Op`/`Intrinsic`/`Def`/`Flag` nodes never appear as
arguments (the source marks them `unreachable!()`). -/
def AstNode.isArgNode : AstNode → Bool
  | .ident _ => true
  | .num _ _ => true
  | .expr _ => true
  | .var _ => true
  | .pound _ _ => true
  | _ => false

/-- Modelled from the spec: per-argument-node knowledge from the type
graph together with the evaluation behaviour of the argument (`eng::arg`,
outside the provided sources): the argument's tag, its known input/output
types, and the resolver invoked by `Argument::resolve`. -/
structure ArgSpec where
  tag : Tag
  inTy : Option Ty := none
  outTy : Option Ty := none
  resolve : (Unit → Value) → Context → Except Error Value

/-- Modelled from the spec: the frozen AST graph, exposing node contents
and the relationships used by `create_var_ref`: `arg.op(ag)` (the op
owning an argument node) and `op.next(ag)` (the next op in the chain). -/
structure AstGraph where
  node : Nat → AstNode
  argSpec : Nat → ArgSpec
  argOp : Nat → Nat
  opNext : Nat → Option Nat

/-- Modelled from the spec: the locals graph; `new_var` either succeeds
with a variable handle or defers, returning the pending change the caller
must queue ("may succeed (returns variable handle), or be deferred
(returns a pending `Chg`)"). -/
structure LocalsGraph where
  new_var : Nat → String → Ty → Tag → Sum Variable Chg

/-- A concrete argument (spec §4.4, the output of `concrete()`):
`Argument::resolve(default_fn, &Context)` evaluates the argument, with
`default_fn` supplying the input. -/
structure Argument where
  tag : Tag
  out_ty : Ty
  resolve : (Unit → Value) → Context → Except Error Value

-- ===== Block (spec §3, src/ogma/src/eng/blk.rs) =============================

/-- The compile-time `Block`: input type, the op node being compiled, the
graphs, the argument and flag stacks (stored in `Vec` order: pops take the
**last** element, yielding the user's left-to-right argument order), the
change buffer, the debug-only asserted output type and the original
argument count. -/
structure Block where
  in_ty : Ty
  node : Nat
  ag : AstGraph
  lg : LocalsGraph
  args : List Nat
  flags : List Tag
  chgs : List Chg := []
  output_ty : Option Ty := none
  args_count : Nat := 0

/-- `Block::op_tag` (`blk.rs`): the op (command) tag; the source asserts
the block's node is an `Op`. -/
def Block.op_tag (blk : Block) : Tag :=
  match blk.ag.node blk.node with
  | .op name _ => name
  | x => x.tag

/-- `Block::blk_tag` (`blk.rs`): the tag spanning the whole block. -/
def Block.blk_tag (blk : Block) : Tag :=
  match blk.ag.node blk.node with
  | .op _ b => b
  | x => x.tag

/-- `Block::args_len` (`blk.rs`): arguments remaining on the stack. -/
def Block.args_len (blk : Block) : Nat := blk.args.length

/-- `Block::assert_output` (`blk.rs` lines 41–53): record the debug-only
output type and push a `KnownOutput` change. -/
def Block.assert_output (blk : Block) (ty : Ty) : Block :=
  { blk with output_ty := some ty, chgs := blk.chgs ++ [Chg.knownOutput blk.node ty] }

/-- Modelled from the spec: `Block::assert_input` publishes knowledge of
the block's input type (not among the provided sources); a mismatch with
the block's input type is a hard semantic error. -/
def Block.assert_input (blk : Block) (ty : Ty) : Except Error Block :=
  if blk.in_ty = ty then .ok { blk with chgs := blk.chgs ++ [Chg.knownInput blk.node ty] }
  else .error (Error.wrong_op_input_type blk.in_ty blk.op_tag)

/-- Pop the last element of a list (Rust `Vec::pop`). -/
def popLast : List α → Option (α × List α)
  | [] => none
  | [a] => some (a, [])
  | a :: rest => (popLast rest).map (fun p => (p.1, a :: p.2))

/-- Remove the first tag whose span text equals `name` (Rust
`iter().position(|x| x.str() == name)` + `remove(i)`). -/
def removeFirstFlag (name : String) : List Tag → Option (Tag × List Tag)
  | [] => none
  | t :: ts =>
    if t.str = name then some (t, ts)
    else (removeFirstFlag name ts).map (fun p => (p.1, t :: p.2))

/-- `Block::get_flag` (`blk.rs` lines 60–69): pop a named flag (first
match in `Vec` order), or any flag (`Vec::pop`) when no name is given. -/
def Block.get_flag (blk : Block) (name : Option String) : Option Tag × Block :=
  match name with
  | some n =>
    match removeFirstFlag n blk.flags with
    | some (t, rest) => (some t, { blk with flags := rest })
    | none => (none, blk)
  | none =>
    match popLast blk.flags with
    | some (t, rest) => (some t, { blk with flags := rest })
    | none => (none, blk)

/-- `Block::peek_next_arg_node` (`blk.rs` line 72): the last element of the
argument `Vec`, i.e. the next argument in source order. -/
def Block.peek_next_arg_node (blk : Block) : Option Nat := blk.args.getLast?

/-- Modelled from the spec: `Block::peek_last_arg_node` — non-popping
inspection of the final (trailing) argument (not among the provided
sources); with the stack popped in left-to-right order the trailing
argument is the first `Vec` element. -/
def Block.peek_last_arg_node (blk : Block) : Option Nat := blk.args.head?

/-- Modelled from the spec: `ArgBuilder`, the state machine
`supplied → returns → concrete` (spec §4.4). -/
structure ArgBuilder where
  node : Nat
  spec : ArgSpec

/-- `Block::next_arg`: pop the next argument node in source order; fails
hard with `insufficient_args` when the stack is empty (spec §4.4; the
method body is outside the provided sources, its contract is the spec's). -/
def Block.next_arg (blk : Block) : Except Error (ArgBuilder × Block) :=
  match popLast blk.args with
  | some ar => .ok ({ node := ar.1, spec := blk.ag.argSpec ar.1 }, { blk with args := ar.2 })
  | none => .error (Error.insufficient_args blk.op_tag blk.args_count)

/-- Modelled from the spec: `ArgBuilder::supplied` informs inference that
the argument will be called with the given input; a conflicting known
input type is a semantic error. -/
def ArgBuilder.supplied (ab : ArgBuilder) (ty : Option Ty) : Except Error ArgBuilder :=
  match ty, ab.spec.inTy with
  | some t, some t' =>
    if t = t' then .ok ab
    else .error (Error.unexp_arg_input_ty t' t ab.spec.tag)
  | some t, none => .ok { ab with spec := { ab.spec with inTy := some t } }
  | none, _ => .ok ab

/-- Modelled from the spec: `ArgBuilder::returns` asserts the argument's
output type, "producing `unexp_arg_output_ty` on mismatch". -/
def ArgBuilder.returns (ab : ArgBuilder) (ty : Ty) : Except Error ArgBuilder :=
  match ab.spec.outTy with
  | some t =>
    if t = ty then .ok ab
    else .error (Error.unexp_arg_output_ty ty t ab.spec.tag)
  | none => .ok { ab with spec := { ab.spec with outTy := some ty } }

/-- Modelled from the spec: `ArgBuilder::concrete` freezes the builder
into an `Argument`; an unknown output type is the soft
`unknown_arg_output_type` error. -/
def mkArgument (sp : ArgSpec) (t : Ty) : Argument :=
  { tag := sp.tag, out_ty := t, resolve := sp.resolve }

def ArgBuilder.concrete (ab : ArgBuilder) : Except Error Argument :=
  match ab.spec.outTy with
  | some t => .ok (mkArgument ab.spec t)
  | none => .error (Error.unknown_arg_output_type ab.spec.tag)

/-- Models the `unreachable!()` panic arm of `create_var_ref`: argument
nodes are never ops, intrinsics, defs or flags. -/
def unreachableErr : Error := { cat := .Internal, desc := "unreachable" }

/-- `Block::create_var_ref` (`blk.rs` lines 86–112) with the change buffer
threaded explicitly.  A `Var` argument whose owning op has a next op binds
at that next node via `lg.new_var` (on deferral the pending change is
pushed and the soft `update_locals_graph` error returned); a `Var` with no
next op yields a no-op variable untouched by the locals graph; any other
argument variant is the hard `unexp_arg_variant` error. -/
def createVarRefCore (ag : AstGraph) (lg : LocalsGraph) (chgs : List Chg) (arg : Nat) (ty : Ty) :
    Except Error Variable × List Chg :=
  match ag.node arg with
  | .var vtag =>
    match ag.opNext (ag.argOp arg) with
    | some next =>
      match lg.new_var next vtag.str ty vtag with
      | .inl v => (.ok v, chgs)
      | .inr chg => (.error (Error.update_locals_graph vtag), chgs ++ [chg])
    | none => (.ok (Variable.noop vtag ty), chgs)
  | .ident t => (.error (Error.unexp_arg_variant t "identifier"), chgs)
  | .num _ t => (.error (Error.unexp_arg_variant t "number"), chgs)
  | .expr t => (.error (Error.unexp_arg_variant t "expression"), chgs)
  | .pound _ t => (.error (Error.unexp_arg_variant t "special-literal"), chgs)
  | _ => (.error unreachableErr, chgs)

/-- `Block::create_var_ref`, at the block level. -/
def Block.create_var_ref (blk : Block) (arg : Nat) (ty : Ty) : Except Error Variable × Block :=
  let r := createVarRefCore blk.ag blk.lg blk.chgs arg ty
  (r.1, { blk with chgs := r.2 })

/-- `Block::finalise` (`blk.rs` lines 195–214): every flag and argument
must have been consumed.  The debug assertion comparing the asserted
output type with `out_ty` has no effect on the returned value. -/
def Block.finalise (blk : Block) (_out_ty : Ty) : Except Error Unit :=
  if blk.flags ≠ [] then .error (Error.unused_flags blk.flags)
  else if blk.args ≠ [] then
    .error (Error.unused_args (blk.args.map (fun a => (blk.ag.node a).tag)))
  else .ok ()

/-- `Block::eval` (`blk.rs` lines 168–178): finalise then build the step.
The final block state is returned alongside the step so the pushed changes
and asserted output type remain observable (in the source they live behind
`&mut` references into the compiler). -/
def Block.eval (blk : Block) (out_ty : Ty) (f : Value → Context → Except Error (Value × Env)) :
    Except Error (Step × Block) :=
  match blk.finalise out_ty with
  | .error e => .error e
  | .ok _ => .ok ({ out_ty := out_ty, f := f }, blk)


-- ===== Concrete fixtures used by witnesses ==================================

/-- A shell tag spanning the whole of `s`. -/
def egTagOf (s : String) : Tag := { line := s.data, start := 0, end_ := utf8Len s.data }

/-- Example locals graph that always succeeds in adding a variable. -/
def egLg : LocalsGraph := ⟨fun _ _ ty tag => .inl (Variable.bound 0 ty tag)⟩

/-- Example AST graph: node 0 is the op, node 1 a `Var` argument, node 2 a
`Num` argument; the op has no next op in the chain.  Every argument node
resolves to `Num 5` with known output type `Num`. -/
def egAst : AstGraph :=
  { node := fun n =>
      if n = 1 then .var (egTagOf "$x")
      else if n = 2 then .num 3 (egTagOf "3")
      else .op (egTagOf "cmd") (egTagOf "cmd $x 3")
    argSpec := fun _ =>
      { tag := egTagOf "arg", outTy := some .num, resolve := fun _ _ => .ok (.num 5) }
    argOp := fun _ => 0
    opNext := fun _ => none }

/-- Example block holding the `Var` argument node. -/
def egBlkVar : Block :=
  { in_ty := .nil, node := 0, ag := egAst, lg := egLg, args := [1], flags := [] }

/-- Example block holding the `Num` argument node. -/
def egBlkNumArg : Block :=
  { in_ty := .nil, node := 0, ag := egAst, lg := egLg, args := [2], flags := [] }

/-- Example block with one unconsumed flag. -/
def egBlkFlagged : Block :=
  { in_ty := .nil, node := 0, ag := egAst, lg := egLg, args := [], flags := [egTagOf "foo"] }

/-- A pass-through step function used by concrete examples. -/
def idStepFn : Value → Context → Except Error (Value × Env) := fun v cx => cx.done v

-- ===== C2: finalisation totality ============================================

/-- **C2.**  `Block::eval` (through `finalise`) returns `Ok(Step)` only
when both the flag stack and the argument stack are empty; any surviving
flag produces the `unused_flags` error, and with no surviving flag but at
least one surviving argument it produces the `unused_args` error built
from the remaining argument tags. -/
theorem C2_eval_finalise (blk : Block) (ty : Ty)
    (f : Value → Context → Except Error (Value × Env)) :
    (∀ s, blk.eval ty f = .ok s → blk.flags = [] ∧ blk.args = [])
    ∧ (blk.flags ≠ [] → blk.eval ty f = .error (Error.unused_flags blk.flags))
    ∧ (blk.flags = [] → blk.args ≠ [] →
        blk.eval ty f
          = .error (Error.unused_args (blk.args.map (fun a => (blk.ag.node a).tag)))) := by
  by_cases h1 : blk.flags = [] <;> by_cases h2 : blk.args = [] <;>
    simp [Block.eval, Block.finalise, h1, h2]

/-- Witness for C2: a block with one left-over flag errors with
`unused_flags`; a block without flags and one left-over argument errors
with `unused_args` built from that argument's tag. -/
theorem C2_eval_finalise_witness :
    (egBlkFlagged.eval .nil idStepFn = .error (Error.unused_flags [egTagOf "foo"]))
    ∧ (egBlkNumArg.eval .nil idStepFn = .error (Error.unused_args [egTagOf "3"])) :=
  ⟨(C2_eval_finalise egBlkFlagged .nil idStepFn).2.1 (by simp [egBlkFlagged]),
   by
    have := (C2_eval_finalise egBlkNumArg .nil idStepFn).2.2 rfl (by simp [egBlkNumArg])
    simpa [egBlkNumArg, egAst, AstNode.tag] using this⟩

-- ===== C10: create_var_ref ==================================================

/-- **C10.**  `Block::create_var_ref` on a `Var` argument whose owning op
has no next node succeeds without touching the locals graph or the change
buffer, returning a no-op `Variable` of the requested type whose writes
are dropped (so the binding is never visible to any downstream node); and
for argument nodes the hard `unexp_arg_variant` error is returned exactly
when the node is not a `Var`. -/
theorem C10_create_var_ref (blk : Block) (arg : Nat) (ty : Ty) :
    (∀ vtag, blk.ag.node arg = .var vtag →
      blk.ag.opNext (blk.ag.argOp arg) = none →
      blk.create_var_ref arg ty = (.ok (Variable.noop vtag ty), blk)
        ∧ (Variable.noop vtag ty).ty = ty
        ∧ ∀ env v, (Variable.noop vtag ty).set_data env v = env)
    ∧ ((blk.ag.node arg).isArgNode = true →
        ((∃ t v, (blk.create_var_ref arg ty).1 = .error (Error.unexp_arg_variant t v))
          ↔ (blk.ag.node arg).isVarNode = false))
    ∧ (∀ t v, (Error.unexp_arg_variant t v).hard = true) := by
  refine ⟨?_, ?_, fun _ _ => rfl⟩
  · intro vtag hnode hnext
    refine ⟨?_, rfl, fun _ _ => rfl⟩
    simp [Block.create_var_ref, createVarRefCore, hnode, hnext]
  · intro harg
    cases hnode : blk.ag.node arg with
    | var vtag =>
      refine iff_of_false ?_ (by simp [AstNode.isVarNode])
      rintro ⟨t, v, hres⟩
      cases hnext : blk.ag.opNext (blk.ag.argOp arg) with
      | none =>
        simp [Block.create_var_ref, createVarRefCore, hnode, hnext] at hres
      | some next =>
        cases hnv : blk.lg.new_var next vtag.str ty vtag with
        | inl v' =>
          simp [Block.create_var_ref, createVarRefCore, hnode, hnext, hnv] at hres
        | inr chg =>
          simp [Block.create_var_ref, createVarRefCore, hnode, hnext, hnv] at hres
          have hcat := congrArg Error.cat hres
          simp [Error.update_locals_graph, Error.unexp_arg_variant] at hcat
    | ident t =>
      exact iff_of_true ⟨t, "identifier",
        by simp [Block.create_var_ref, createVarRefCore, hnode]⟩ rfl
    | num q t =>
      exact iff_of_true ⟨t, "number",
        by simp [Block.create_var_ref, createVarRefCore, hnode]⟩ rfl
    | expr t =>
      exact iff_of_true ⟨t, "expression",
        by simp [Block.create_var_ref, createVarRefCore, hnode]⟩ rfl
    | pound c t =>
      exact iff_of_true ⟨t, "special-literal",
        by simp [Block.create_var_ref, createVarRefCore, hnode]⟩ rfl
    | op a b => rw [hnode] at harg; exact absurd harg (by simp [AstNode.isArgNode])
    | intrinsic t => rw [hnode] at harg; exact absurd harg (by simp [AstNode.isArgNode])
    | def_ t => rw [hnode] at harg; exact absurd harg (by simp [AstNode.isArgNode])
    | flag t => rw [hnode] at harg; exact absurd harg (by simp [AstNode.isArgNode])

/-- Witness for C10: on the example graph, binding the `Var` node yields a
no-op variable (no block change), while the `Num` node yields the
`unexp_arg_variant` error. -/
theorem C10_create_var_ref_witness :
    (egBlkVar.create_var_ref 1 .num = (.ok (Variable.noop (egTagOf "$x") .num), egBlkVar))
    ∧ ((egBlkNumArg.create_var_ref 2 .num).1
        = .error (Error.unexp_arg_variant (egTagOf "3") "number")) :=
  ⟨((C10_create_var_ref egBlkVar 1 .num).1 (egTagOf "$x")
      (by simp [egBlkVar, egAst]) (by simp [egBlkVar, egAst])).1,
   by simp [Block.create_var_ref, createVarRefCore, egBlkNumArg, egAst]⟩

-- ===== Value conversions (lang/types, outside src → modelled) ===============

/-- Modelled from the spec: `TryFrom<Value> for Str` — succeeds exactly on
string values, otherwise the internal `conversion_failed` error. -/
def Str.try_from : Value → Except Error (List Char)
  | .str s => .ok s
  | v => .error (Error.conversion_failed .str v.ty)

/-- Modelled from the spec: `TryFrom<Value> for Table`. -/
def Table.try_from : Value → Except Error Table
  | .tab t => .ok t
  | v => .error (Error.conversion_failed .tab v.ty)

/-- Modelled from the spec: `TryFrom<Value> for Number`. -/
def Number.try_from : Value → Except Error ℚ
  | .num q => .ok q
  | v => .error (Error.conversion_failed .num v.ty)

/-- Modelled from the spec: Rust's `Display` for `Number` (`f64`).  Exact
for integral values (Rust prints `5` for `5.0`); the non-integral
rendering is abstracted as the rational's own rendering. -/
def numFmt (q : ℚ) : String := if q.den = 1 then toString q.num else toString q

/-- Modelled from the spec: `cnv_num_to_uint::<usize>` (defined outside the
provided sources) converts a numeric value to an unsigned integer, failing
with an evaluation error on non-numbers, negatives and non-integers. -/
def cnv_num_to_uint (v : Value) (tag : Tag) : Except Error Nat :=
  match v with
  | .num q =>
    if q.den = 1 ∧ 0 ≤ q.num then .ok q.num.toNat
    else .error (Error.eval tag ("converting number into unsigned integer failed, got "
      ++ numFmt q) none none)
  | v => .error (Error.conversion_failed .num v.ty)

-- ===== len (pipeline.rs lines 300–349) ======================================

/-- Evaluation function of `len` on `Str` (`pipeline.rs` lines 304–309):
`Str::try_from`, then the character count as a `Num`. -/
def lenStrFn (v : Value) (cx : Context) : Except Error (Value × Env) :=
  match Str.try_from v with
  | .error e => .error e
  | .ok s => cx.done (.num (s.length : ℚ))

/-- `len_str_intrinsic` (`pipeline.rs` lines 300–310). -/
def len_str_intrinsic (blk : Block) : Except Error (Step × Block) :=
  match blk.assert_input .str with
  | .error e => .error e
  | .ok blk => (blk.assert_output .num).eval .num lenStrFn

/-- Evaluation function of `len` on `Table` (`pipeline.rs` lines 337–348):
`rows_len` saturating-minus one, or `cols_len` under `--cols` (`Nat`
subtraction is Rust's `saturating_sub`). -/
def lenTableFn (cols : Bool) (v : Value) (cx : Context) : Except Error (Value × Env) :=
  match Table.try_from v with
  | .error e => .error e
  | .ok t =>
    let n : Nat := if cols then t.cols_len else t.rows_len - 1
    cx.done (.num (n : ℚ))

/-- `len_table_intrinsic` (`pipeline.rs` lines 332–349). -/
def len_table_intrinsic (blk : Block) : Except Error (Step × Block) :=
  match blk.assert_input .tab with
  | .error e => .error e
  | .ok blk =>
    match (blk.assert_output .num).get_flag (some "cols") with
    | (cols, blk) => blk.eval .num (lenTableFn cols.isSome)

theorem removeFirstFlag_isSome (n : String) (l : List Tag) :
    (removeFirstFlag n l).isSome = l.any (fun t => t.str = n) := by
  induction l with
  | nil => rfl
  | cons t ts ih =>
    by_cases h : t.str = n <;> simp [removeFirstFlag, h, ih]

theorem get_flag_isSome (b : Block) (n : String) :
    (b.get_flag (some n)).1.isSome = b.flags.any (fun t => t.str = n) := by
  unfold Block.get_flag
  rw [← removeFirstFlag_isSome]
  cases hr : removeFirstFlag n b.flags <;> simp [hr]

/-- **C4.**  `len` on a `Str` input returns a `Num` equal to the string's
character count (`\ 'Hello, 🌎!' | len` yields `Num 9`); on a `Table`
input it returns `Num (rows_len - 1)` (header row excluded), or
`Num cols_len` when the `--cols` flag was supplied. -/
theorem C4_len (s : List Char) (t : Table) (cx : Context) :
    (∀ blk step blk2, len_str_intrinsic blk = .ok (step, blk2) →
        step.f (.str s) cx = .ok (.num (s.length : ℚ), cx.env))
    ∧ lenStrFn (.str "Hello, 🌎!".data) cx = .ok (.num 9, cx.env)
    ∧ lenTableFn false (.tab t) cx = .ok (.num ((t.rows_len - 1 : ℕ) : ℚ), cx.env)
    ∧ lenTableFn true (.tab t) cx = .ok (.num (t.cols_len : ℚ), cx.env)
    ∧ (∀ blk step blk2, len_table_intrinsic blk = .ok (step, blk2) →
        step.f = lenTableFn (blk.flags.any (fun fl => fl.str = "cols"))) := by
  refine ⟨?_, by simp [lenStrFn, Str.try_from, Context.done], rfl, rfl, ?_⟩
  · intro blk step blk2 h
    unfold len_str_intrinsic at h
    split at h
    · exact absurd h (by simp)
    · unfold Block.eval at h
      split at h
      · exact absurd h (by simp)
      · have hp := Except.ok.inj h
        have hf := congrArg (fun p : Step × Block => p.1.f) hp
        simp only at hf
        rw [← hf]
        simp [lenStrFn, Str.try_from, Context.done]
  · intro blk step blk2 h
    unfold len_table_intrinsic at h
    split at h
    · exact absurd h (by simp)
    · rename_i blk1 heq1
      split at h
      rename_i cols blk3 heq2
      unfold Block.eval at h
      split at h
      · exact absurd h (by simp)
      · have hp := Except.ok.inj h
        have hstep : ({ out_ty := Ty.num, f := lenTableFn cols.isSome } : Step) = step :=
          congrArg Prod.fst hp
        rw [← hstep]
        show lenTableFn cols.isSome = _
        have hcols : cols = ((blk1.assert_output Ty.num).get_flag (some "cols")).1 :=
          (congrArg Prod.fst heq2).symm
        rw [hcols, get_flag_isSome]
        have hflags : blk1.flags = blk.flags := by
          unfold Block.assert_input at heq1
          split at heq1
          · have := Except.ok.inj heq1
            rw [← this]
          · exact absurd heq1 (by simp)
        have : (blk1.assert_output Ty.num).flags = blk1.flags := rfl
        rw [this, hflags]

/-- Example block with `Str` input and nothing on the stacks. -/
def egBlkStrIn : Block :=
  { in_ty := .str, node := 0, ag := egAst, lg := egLg, args := [], flags := [] }

/-- `egBlkStrIn` after `len`'s compilation: input/output knowledge pushed,
output type asserted. -/
def egBlkStrFinal : Block :=
  { in_ty := .str, node := 0, ag := egAst, lg := egLg, args := [], flags := [],
    chgs := [.knownInput 0 .str, .knownOutput 0 .num], output_ty := some .num }

/-- Example block with `Table` input and a `--cols` flag. -/
def egBlkTabCols : Block :=
  { in_ty := .tab, node := 0, ag := egAst, lg := egLg, args := [], flags := [egTagOf "cols"] }

/-- `egBlkTabCols` after `len`'s compilation (the flag consumed). -/
def egBlkTabFinal : Block :=
  { in_ty := .tab, node := 0, ag := egAst, lg := egLg, args := [], flags := [],
    chgs := [.knownInput 0 .tab, .knownOutput 0 .num], output_ty := some .num }

/-- Witness for C4: the compiled `len` step applied to `'Hello, 🌎!'`
yields `Num 9`, and a compiled `len --cols` block's step is the
column-counting function. -/
theorem C4_len_witness :
    Step.f ⟨Ty.num, lenStrFn⟩ (.str "Hello, 🌎!".data) ⟨[]⟩
      = .ok (.num ("Hello, 🌎!".data.length : ℚ), ([] : Env))
    ∧ Step.f ⟨Ty.num, lenTableFn true⟩
      = lenTableFn (egBlkTabCols.flags.any (fun fl => fl.str = "cols")) :=
  ⟨(C4_len "Hello, 🌎!".data ⟨4, 3⟩ ⟨[]⟩).1 egBlkStrIn ⟨Ty.num, lenStrFn⟩ egBlkStrFinal rfl,
   (C4_len [] ⟨4, 3⟩ ⟨[]⟩).2.2.2.2 egBlkTabCols ⟨Ty.num, lenTableFn true⟩ egBlkTabFinal rfl⟩

-- ===== `\` input command (pipeline.rs lines 280–286) ========================

/-- Evaluation function of `\` (`in_intrinsic`): resolve the argument with
the carried value as default input, discard the carried value and return
the resolved value. -/
def inFn (arg : Argument) (val : Value) (cx : Context) : Except Error (Value × Env) :=
  match arg.resolve (fun _ => val) cx with
  | .error e => .error e
  | .ok x => cx.done x

/-- `in_intrinsic` (`pipeline.rs` lines 280–286). -/
def in_intrinsic (blk : Block) : Except Error (Step × Block) :=
  match blk.next_arg with
  | .error e => .error e
  | .ok abblk =>
    match abblk.1.supplied none with
    | .error e => .error e
    | .ok ab =>
      match ab.concrete with
      | .error e => .error e
      | .ok arg => (abblk.2.assert_output arg.out_ty).eval arg.out_ty (inFn arg)

/-- **C8.**  For every successfully compiled `\` block, the asserted
output type equals the single argument's output type (which is also the
step's output type), and evaluating the step with any carried value
returns the resolved argument value, discarding the carried input. -/
theorem C8_in_intrinsic (blk : Block) (step : Step) (blk2 : Block)
    (h : in_intrinsic blk = .ok (step, blk2)) :
    ∃ ar, popLast blk.args = some ar ∧
      ∃ ty, (blk.ag.argSpec ar.1).outTy = some ty ∧
        step.out_ty = ty ∧ blk2.output_ty = some ty ∧
        (∀ v cx, step.f v cx = inFn (mkArgument (blk.ag.argSpec ar.1) ty) v cx) := by
  unfold in_intrinsic at h
  split at h
  · exact absurd h (by simp)
  · rename_i abblk hpop
    unfold Block.next_arg at hpop
    split at hpop
    · rename_i ar hq
      refine ⟨ar, hq, ?_⟩
      have habblk := Except.ok.inj hpop
      subst habblk
      rw [show (ArgBuilder.supplied { node := ar.1, spec := blk.ag.argSpec ar.1 } none)
            = .ok { node := ar.1, spec := blk.ag.argSpec ar.1 } from rfl] at h
      cases hout : (blk.ag.argSpec ar.1).outTy with
      | none =>
        simp only [ArgBuilder.concrete, hout] at h
        exact absurd h (by simp)
      | some ty =>
        refine ⟨ty, rfl, ?_⟩
        simp only [ArgBuilder.concrete, hout] at h
        unfold Block.eval at h
        split at h
        · exact absurd h (by simp)
        · have hp := Except.ok.inj h
          have hstep : Step.mk (mkArgument (blk.ag.argSpec ar.1) ty).out_ty
              (inFn (mkArgument (blk.ag.argSpec ar.1) ty)) = step :=
            congrArg Prod.fst hp
          have hb2 : (({ blk with args := ar.2 } : Block).assert_output
              (mkArgument (blk.ag.argSpec ar.1) ty).out_ty) = blk2 :=
            congrArg Prod.snd hp
          refine ⟨(congrArg Step.out_ty hstep).symm.trans rfl, ?_, ?_⟩
          · rw [← hb2]; rfl
          · intro v cx
            rw [← hstep]
    · exact absurd hpop (by simp)

/-- Witness for C8: compiling `\` on the example block (whose argument
resolves to `Num 5` with known output type `Num`) produces a step whose
output type is `Num`, asserts `Num` on the block, and evaluates to the
argument's value. -/
theorem C8_in_intrinsic_witness :
    ∃ ar, popLast egBlkVar.args = some ar ∧
      ∃ ty, (egBlkVar.ag.argSpec ar.1).outTy = some ty ∧
        Step.out_ty ⟨Ty.num, inFn (mkArgument (egAst.argSpec 1) Ty.num)⟩ = ty ∧
        (Block.assert_output { egBlkVar with args := [] } Ty.num).output_ty = some ty ∧
        (∀ v cx, Step.f ⟨Ty.num, inFn (mkArgument (egAst.argSpec 1) Ty.num)⟩ v cx
          = inFn (mkArgument (egBlkVar.ag.argSpec ar.1) ty) v cx) :=
  C8_in_intrinsic egBlkVar ⟨Ty.num, inFn (mkArgument (egAst.argSpec 1) Ty.num)⟩
    (Block.assert_output { egBlkVar with args := [] } Ty.num) rfl

-- ===== nth on tables (pipeline.rs lines 523–552) ============================

/-- Evaluation function of `nth` on `Table` (`pipeline.rs` lines 534–551):
resolve the index (adjusted by one for the header row), bounds-check it
against `rows_len`, and apply the expression argument to the table row. -/
def nthTableFn (n expr : Argument) (table : Value) (cx : Context) : Except Error (Value × Env) :=
  match n.resolve (fun _ => table) cx with
  | .error e => .error e
  | .ok v =>
    match cnv_num_to_uint v n.tag with
    | .error e => .error e
    | .ok nth =>
      match Table.try_from table with
      | .error e => .error e
      | .ok t =>
        if nth + 1 ≥ t.rows_len then
          .error (Error.eval n.tag "index is outside table bounds"
            (some ("this resolves to `" ++ toString nth ++ "`")) none)
        else
          match expr.resolve (fun _ => .tabRow t (nth + 1)) cx with
          | .error e => .error e
          | .ok v2 => cx.done v2

/-- `nth_table_intrinsic` (`pipeline.rs` lines 523–552). -/
def nth_table_intrinsic (blk : Block) : Except Error (Step × Block) :=
  match blk.assert_input .tab with
  | .error e => .error e
  | .ok blk =>
    match blk.next_arg with
    | .error e => .error e
    | .ok nb =>
      match nb.1.supplied none with
      | .error e => .error e
      | .ok ab =>
        match ab.returns .num with
        | .error e => .error e
        | .ok ab =>
          match ab.concrete with
          | .error e => .error e
          | .ok n =>
            match nb.2.next_arg with
            | .error e => .error e
            | .ok eb =>
              match eb.1.supplied (some .tabRow) with
              | .error e => .error e
              | .ok ab2 =>
                match ab2.concrete with
                | .error e => .error e
                | .ok expr => eb.2.eval expr.out_ty (nthTableFn n expr)

/-- **C6.**  Every compiled `nth`-on-Table step evaluates `nthTableFn`;
with resolved index `idx`, if `idx + 1 ≥ rows_len` the step returns the
evaluation error "index is outside table bounds" (independently of the
expression argument, which is not applied), otherwise it applies the
expression to the `TableRow` at row `idx + 1` and returns its result. -/
theorem C6_nth_table (n expr : Argument) (t : Table) (cx : Context) (v : Value) (idx : Nat)
    (hres : n.resolve (fun _ => .tab t) cx = .ok v)
    (hcnv : cnv_num_to_uint v n.tag = .ok idx) :
    (∀ blk step blk2, nth_table_intrinsic blk = .ok (step, blk2) →
      ∃ na ea, step.f = nthTableFn na ea ∧ step.out_ty = ea.out_ty)
    ∧ (idx + 1 ≥ t.rows_len →
        nthTableFn n expr (.tab t) cx
          = .error (Error.eval n.tag "index is outside table bounds"
              (some ("this resolves to `" ++ toString idx ++ "`")) none))
    ∧ (idx + 1 < t.rows_len →
        nthTableFn n expr (.tab t) cx
          = match expr.resolve (fun _ => .tabRow t (idx + 1)) cx with
            | .error e => .error e
            | .ok v2 => cx.done v2) := by
  refine ⟨?_, ?_, ?_⟩
  · intro blk step blk2 h
    unfold nth_table_intrinsic at h
    split at h
    · exact absurd h (by simp)
    split at h
    · exact absurd h (by simp)
    split at h
    · exact absurd h (by simp)
    split at h
    · exact absurd h (by simp)
    split at h
    · exact absurd h (by simp)
    split at h
    · exact absurd h (by simp)
    split at h
    · exact absurd h (by simp)
    split at h
    · exact absurd h (by simp)
    unfold Block.eval at h
    split at h
    · exact absurd h (by simp)
    · have hp := Except.ok.inj h
      have hstep : Step.mk _ (nthTableFn _ _) = step := congrArg Prod.fst hp
      exact ⟨_, _, (congrArg Step.f hstep).symm, (congrArg Step.out_ty hstep).symm⟩
  · intro hge
    simp only [nthTableFn, hres, hcnv, Table.try_from, if_pos hge]
  · intro hlt
    simp only [nthTableFn, hres, hcnv, Table.try_from]
    rw [if_neg (by omega : ¬ idx + 1 ≥ t.rows_len)]

/-- A literal numeric argument used by concrete examples. -/
def egArgNum (q : ℚ) : Argument :=
  { tag := egTagOf "n", out_ty := .num, resolve := fun _ _ => .ok (.num q) }

/-- An expression argument extracting the row index, used by examples. -/
def egArgRowIdx : Argument :=
  { tag := egTagOf "expr", out_ty := .num
    resolve := fun d _ => match d () with
      | .tabRow _ i => .ok (.num (i : ℚ))
      | _ => .ok .nil }

/-- Witness for C6: on a 2-row table, index 5 is out of bounds (error, and
the result does not depend on the expression), while index 0 applies the
expression to `TableRow 1` — here returning the row index `1`. -/
theorem C6_nth_table_witness :
    (nthTableFn (egArgNum 5) egArgRowIdx (.tab ⟨2, 1⟩) ⟨[]⟩
      = .error (Error.eval (egTagOf "n") "index is outside table bounds"
          (some "this resolves to `5`") none))
    ∧ (nthTableFn (egArgNum 0) egArgRowIdx (.tab ⟨2, 1⟩) ⟨[]⟩
      = .ok (.num 1, ([] : Env))) :=
  ⟨(C6_nth_table (egArgNum 5) egArgRowIdx ⟨2, 1⟩ ⟨[]⟩ (.num 5) 5 rfl rfl).2.1
      (by norm_num),
   ((C6_nth_table (egArgNum 0) egArgRowIdx ⟨2, 1⟩ ⟨[]⟩ (.num 0) 0 rfl rfl).2.2
      (by norm_num)).trans rfl⟩

-- ===== rand (pipeline.rs lines 583–653) =====================================

/-- `check_from_lt_to` (`pipeline.rs` lines 642–653). -/
def check_from_lt_to (from_ to_ : ℚ) (tag : Tag) : Except Error Unit :=
  if from_ ≥ to_ then
    .error (Error.eval tag
      ("from must be less than to. found from: " ++ numFmt from_ ++ " to: " ++ numFmt to_)
      none none)
  else .ok ()

/-- `bnd` helper of `rand_intrinsic` (`pipeline.rs` lines 608–613): resolve
an optional bound, falling back to the default. -/
def bnd (arg : Option Argument) (i : Value) (cx : Context) (default_ : ℚ) : Except Error ℚ :=
  match arg with
  | some x =>
    match x.resolve (fun _ => i) cx with
    | .error e => .error e
    | .ok v =>
      match Number.try_from v with
      | .error e => .error e
      | .ok n => .ok n
  | none => .ok default_

/-- Evaluation function of `rand` with 0–2 arguments (`pipeline.rs` lines
632–639): resolve the bounds, check `from < to`, return a number in the
range.  The `fastrand::f64()` draw is modelled as the oracle `rng`. -/
def randStepFn (from_ to_ : Option Argument) (tag : Tag) (rng : ℚ)
    (i : Value) (cx : Context) : Except Error (Value × Env) :=
  match bnd from_ i cx 0 with
  | .error e => .error e
  | .ok f =>
    match bnd to_ i cx 1 with
    | .error e => .error e
    | .ok t =>
      match check_from_lt_to f t tag with
      | .error e => .error e
      | .ok _ => cx.done (.num (rng * (t - f) + f))

/-- Evaluation function of `rand` with 3 arguments (`pipeline.rs` lines
617–630): bounds, then the length, then the `from < to` check, then a
one-column table of `len` random numbers under a `rand` header (the table
model records only the row/column counts, so the rng draws are dropped). -/
def randTableStepFn (from_ to_ : Option Argument) (len : Argument) (tag : Tag)
    (i : Value) (cx : Context) : Except Error (Value × Env) :=
  match bnd from_ i cx 0 with
  | .error e => .error e
  | .ok f =>
    match bnd to_ i cx 1 with
    | .error e => .error e
    | .ok t =>
      match len.resolve (fun _ => i) cx with
      | .error e => .error e
      | .ok lv =>
        match cnv_num_to_uint lv len.tag with
        | .error e => .error e
        | .ok n =>
          match check_from_lt_to f t tag with
          | .error e => .error e
          | .ok _ => cx.done (.tab ⟨n + 1, 1⟩)

/-- The `next_num` closure of `rand_intrinsic` (`pipeline.rs` lines
593–599): `next_arg.supplied(None).returns(Num).concrete`. -/
def nextNum (blk : Block) : Except Error (Argument × Block) :=
  match blk.next_arg with
  | .error e => .error e
  | .ok p =>
    match p.1.supplied none with
    | .error e => .error e
    | .ok ab =>
      match ab.returns .num with
      | .error e => .error e
      | .ok ab =>
        match ab.concrete with
        | .error e => .error e
        | .ok a => .ok (a, p.2)

/-- `rand_intrinsic` (`pipeline.rs` lines 583–640), with the rng draw as a
parameter: assert `Tab` output for three arguments else `Num`, pop the
bounds/length, and build the matching step. -/
def rand_intrinsic (rng : ℚ) (blk : Block) : Except Error (Step × Block) :=
  let args := blk.args_len
  let blk := blk.assert_output (if args = 3 then .tab else .num)
  let tag := blk.op_tag
  if args = 1 then
    match nextNum blk with
    | .error e => .error e
    | .ok (to_, blk) => blk.eval .num (randStepFn none (some to_) tag rng)
  else if args = 2 then
    match nextNum blk with
    | .error e => .error e
    | .ok (from_, blk) =>
      match nextNum blk with
      | .error e => .error e
      | .ok (to_, blk) => blk.eval .num (randStepFn (some from_) (some to_) tag rng)
  else if args = 3 then
    match nextNum blk with
    | .error e => .error e
    | .ok (from_, blk) =>
      match nextNum blk with
      | .error e => .error e
      | .ok (to_, blk) =>
        match nextNum blk with
        | .error e => .error e
        | .ok (len, blk) => blk.eval .tab (randTableStepFn (some from_) (some to_) len tag)
  else blk.eval .num (randStepFn none none tag rng)

/-- **C5.**  For every evaluation of a `rand` step whose bounds resolve to
`f` and `t`: if `f ≥ t` the step returns an Evaluation-category error with
description exactly `from must be less than to. found from: <f> to: <t>`,
and if `f < t` no such error is raised (the step succeeds); the
three-argument variant behaves identically once its length argument
resolves.  At `rand 5 3` the description is byte-for-byte
`from must be less than to. found from: 5 to: 3`. -/
theorem C5_rand (from_ to_ : Option Argument) (lenA : Argument) (tag : Tag) (rng : ℚ)
    (i : Value) (cx : Context) (f t : ℚ)
    (hf : bnd from_ i cx 0 = .ok f) (ht : bnd to_ i cx 1 = .ok t) :
    ((Error.eval tag ("from must be less than to. found from: " ++ numFmt f ++ " to: "
        ++ numFmt t) none none).cat = .Evaluation)
    ∧ (f ≥ t → randStepFn from_ to_ tag rng i cx
        = .error (Error.eval tag ("from must be less than to. found from: " ++ numFmt f
            ++ " to: " ++ numFmt t) none none))
    ∧ (f < t → randStepFn from_ to_ tag rng i cx = cx.done (.num (rng * (t - f) + f)))
    ∧ (∀ lv n, lenA.resolve (fun _ => i) cx = .ok lv → cnv_num_to_uint lv lenA.tag = .ok n →
        (f ≥ t → randTableStepFn from_ to_ lenA tag i cx
            = .error (Error.eval tag ("from must be less than to. found from: " ++ numFmt f
                ++ " to: " ++ numFmt t) none none))
        ∧ (f < t → randTableStepFn from_ to_ lenA tag i cx = cx.done (.tab ⟨n + 1, 1⟩)))
    ∧ ("from must be less than to. found from: " ++ numFmt (5 : ℚ) ++ " to: " ++ numFmt (3 : ℚ)
        = "from must be less than to. found from: 5 to: 3") := by
  refine ⟨rfl, ?_, ?_, ?_, by decide⟩
  · intro hge
    simp only [randStepFn, hf, ht, check_from_lt_to]
    rw [if_pos hge]
  · intro hlt
    simp only [randStepFn, hf, ht, check_from_lt_to]
    rw [if_neg (not_le.mpr hlt)]
  · intro lv n hlv hn
    constructor
    · intro hge
      simp only [randTableStepFn, hf, ht, hlv, hn, check_from_lt_to]
      rw [if_pos hge]
    · intro hlt
      simp only [randTableStepFn, hf, ht, hlv, hn, check_from_lt_to]
      rw [if_neg (not_le.mpr hlt)]

/-- Witness for C5: `rand 5 3` yields exactly
`Evaluation Error: from must be less than to. found from: 5 to: 3`, and
`rand 3 5` raises no error. -/
theorem C5_rand_witness :
    (randStepFn (some (egArgNum 5)) (some (egArgNum 3)) (egTagOf "rand") (1/2) .nil ⟨[]⟩
      = .error (Error.eval (egTagOf "rand")
          "from must be less than to. found from: 5 to: 3" none none))
    ∧ (randStepFn (some (egArgNum 3)) (some (egArgNum 5)) (egTagOf "rand") (1/2) .nil ⟨[]⟩
      = .ok (.num ((1 : ℚ)/2 * ((5 : ℚ) - 3) + 3), ([] : Env))) := by
  constructor
  · have := (C5_rand (some (egArgNum 5)) (some (egArgNum 3)) (egArgNum 1) (egTagOf "rand")
      (1/2) .nil ⟨[]⟩ 5 3 rfl rfl).2.1 (by norm_num)
    rw [this]
    have hs := (C5_rand (some (egArgNum 5)) (some (egArgNum 3)) (egArgNum 1) (egTagOf "rand")
      (1/2) .nil ⟨[]⟩ 5 3 rfl rfl).2.2.2.2
    rw [show ("from must be less than to. found from: " ++ numFmt (5 : ℚ) ++ " to: "
      ++ numFmt (3 : ℚ)) = "from must be less than to. found from: 5 to: 3" from hs]
  · exact (C5_rand (some (egArgNum 3)) (some (egArgNum 5)) (egArgNum 1) (egTagOf "rand")
      (1/2) .nil ⟨[]⟩ 3 5 rfl rfl).2.2.1 (by norm_num)

-- ===== let (pipeline.rs lines 384–458) ======================================

/-- `bind_vars` of `let_intrinsic` (`pipeline.rs` lines 443–449): resolve
each binding expression with the block input as default and write it into
the environment. -/
def bindVars : List (Variable × Argument) → Value → Context → Except Error Context
  | [], _, cx => .ok cx
  | b :: rest, v, cx =>
    match b.2.resolve (fun _ => v) cx with
    | .error err => .error err
    | .ok val => bindVars rest v { cx with env := b.1.set_data cx.env val }

/-- The evaluation closure of `let_intrinsic` (`pipeline.rs` lines
451–457): bind the variables, bind the trailing variable (if any) to the
input, then pass the input through unchanged. -/
def letStepFn (bindings : List (Variable × Argument)) (trailing : Option Variable)
    (v : Value) (cx : Context) : Except Error (Value × Env) :=
  match bindVars bindings v cx with
  | .error e => .error e
  | .ok cx2 =>
    match trailing with
    | some tv => Context.done { cx2 with env := tv.set_data cx2.env v } v
    | none => cx2.done v

/-- The `build_bindings` loop of `let_intrinsic` (`pipeline.rs` lines
406–416), over the pop-order argument stack: while more than one argument
remains, pop an expression argument (`supplied(None).concrete()`) and a
variable node, create the variable reference, and record the binding.
Returns the change buffer, the remaining stack and the bindings (or the
first error). -/
def bbGo (ag : AstGraph) (lg : LocalsGraph) :
    List Nat → List Chg → List (Variable × Argument) →
    List Chg × List Nat × Except Error (List (Variable × Argument))
  | a :: b :: rest, chgs, acc =>
    match ArgBuilder.supplied { node := a, spec := ag.argSpec a } none with
    | .error e => (chgs, b :: rest, .error e)
    | .ok ab =>
      match ab.concrete with
      | .error e => (chgs, b :: rest, .error e)
      | .ok e =>
        match createVarRefCore ag lg chgs b e.out_ty with
        | (.error err, chgs2) => (chgs2, rest, .error err)
        | (.ok v, chgs2) => bbGo ag lg rest chgs2 (acc ++ [(v, e)])
  | stack, chgs, acc => (chgs, stack, .ok acc)

/-- The block tag of the op owning a node. -/
def opBlkTagOf (ag : AstGraph) (n : Nat) : Tag :=
  match ag.node (ag.argOp n) with
  | .op _ b => b
  | x => x.tag

/-- The forgotten-pipe detection of `let_intrinsic` (`pipeline.rs` lines
390–404): when the trailing argument is an `Expr` node, format a
contextual hint from the owning op's block tag up to the expression. -/
def forgottenPipeHint (blk : Block) : Option String :=
  match blk.peek_last_arg_node with
  | none => none
  | some n =>
    match blk.ag.node n with
    | .expr etag =>
      some ("maybe you forgot a pipe: `"
        ++ (byteTake (byteDrop (opBlkTagOf blk.ag n).line (opBlkTagOf blk.ag n).start)
              (etag.start - (opBlkTagOf blk.ag n).start)).asString
        ++ "| " ++ etag.str ++ "`?")
    | _ => none

/-- The help-message patching of `let_intrinsic` (`pipeline.rs` lines
418–426): append the forgotten-pipe hint to the error's help message. -/
def patchHelp (e : Error) (fp : Option String) : Error :=
  match e.help_msg, fp with
  | some a, some b => { e with help_msg := some (a ++ "\n    help: " ++ b) }
  | some a, none => { e with help_msg := some a }
  | none, b => { e with help_msg := b }

/-- `let_intrinsic` (`pipeline.rs` lines 384–458): assert the output type
equal to the input type, build the `expr $var` bindings, optionally bind a
trailing `$var`, and pass the input through.  The debug-only
`assert_adds_vars` / `assert_vars_added` bookkeeping and the
`oblige_args_supplied_tys(None)` call (both outside the provided sources,
with no observable effect on these claims) are omitted. -/
def let_intrinsic (blk : Block) : Except Error (Step × Block) :=
  let blk1 := blk.assert_output blk.in_ty
  let fp := forgottenPipeHint blk1
  let r3 := bbGo blk1.ag blk1.lg blk1.args.reverse blk1.chgs []
  match r3.2.2 with
  | .error e => .error (patchHelp e fp)
  | .ok bindings =>
    let blk2 : Block := { blk1 with args := r3.2.1.reverse, chgs := r3.1 }
    if blk2.args_len > 0 then
      match blk2.next_arg with
      | .error e => .error e
      | .ok p =>
        match (p.2.create_var_ref p.1.node blk2.in_ty).1 with
        | .error e => .error e
        | .ok v =>
          (p.2.create_var_ref p.1.node blk2.in_ty).2.eval blk2.in_ty
            (letStepFn bindings (some v))
    else blk2.eval blk2.in_ty (letStepFn bindings none)

theorem letStepFn_fst (bs : List (Variable × Argument)) (tr : Option Variable)
    (v : Value) (cx : Context) (r : Value × Env)
    (hr : letStepFn bs tr v cx = .ok r) : r.1 = v := by
  unfold letStepFn at hr
  split at hr
  · exact absurd hr (by simp)
  · split at hr
    · exact (congrArg Prod.fst (Except.ok.inj hr)).symm
    · exact (congrArg Prod.fst (Except.ok.inj hr)).symm

/-- **C7.**  For every successfully compiled `let` block — any number of
`expr $var` bindings, trailing `$var` or not — the asserted output type
and the step's output type equal the block's input type, and whenever the
evaluation step succeeds it returns the input value unchanged (the
bindings only mutate the environment). -/
theorem C7_let_intrinsic (blk : Block) (step : Step) (blk2 : Block)
    (h : let_intrinsic blk = .ok (step, blk2)) :
    step.out_ty = blk.in_ty ∧ blk2.output_ty = some blk.in_ty ∧
    (∀ v cx r, step.f v cx = .ok r → r.1 = v) := by
  simp only [let_intrinsic] at h
  split at h
  · exact absurd h (by simp)
  · rename_i bindings hbb
    split at h
    · -- trailing `$var` present
      split at h
      · exact absurd h (by simp)
      · rename_i p hna
        split at h
        · exact absurd h (by simp)
        · rename_i v hcv
          unfold Block.eval at h
          split at h
          · exact absurd h (by simp)
          · have hp := Except.ok.inj h
            have hstep : Step.mk blk.in_ty (letStepFn bindings (some v)) = step :=
              congrArg Prod.fst hp
            refine ⟨(congrArg Step.out_ty hstep).symm, ?_, ?_⟩
            · unfold Block.next_arg at hna
              split at hna
              · rename_i ar har
                have hp2 := Except.ok.inj hna
                have hb2 : (p.2.create_var_ref p.1.node
                    (blk.assert_output blk.in_ty).in_ty).2 = blk2 := congrArg Prod.snd hp
                rw [← hb2, ← hp2]
                rfl
              · exact absurd hna (by simp)
            · intro v' cx r hr
              rw [← hstep] at hr
              have hr2 : letStepFn bindings (some v) v' cx = .ok r := hr
              exact letStepFn_fst _ _ _ _ _ hr2
    · -- no trailing variable
      unfold Block.eval at h
      split at h
      · exact absurd h (by simp)
      · have hp := Except.ok.inj h
        have hstep : Step.mk blk.in_ty (letStepFn bindings none) = step :=
          congrArg Prod.fst hp
        refine ⟨(congrArg Step.out_ty hstep).symm, ?_, ?_⟩
        · have hout : some blk.in_ty = blk2.output_ty :=
            congrArg (fun q : Step × Block => q.2.output_ty) hp
          exact hout.symm
        · intro v' cx r hr
          rw [← hstep] at hr
          have hr2 : letStepFn bindings none v' cx = .ok r := hr
          exact letStepFn_fst _ _ _ _ _ hr2

/-- Example `let` block: input type `Num`, a single trailing `$x`
argument. -/
def egLetBlk : Block :=
  { in_ty := .num, node := 0, ag := egAst, lg := egLg, args := [1], flags := [] }

/-- `egLetBlk` after `let`'s compilation. -/
def egLetFinal : Block :=
  { in_ty := .num, node := 0, ag := egAst, lg := egLg, args := [], flags := [],
    chgs := [.knownOutput 0 .num], output_ty := some .num }

/-- Witness for C7: compiling `let $x` on a `Num`-input block asserts
output `Num`, and the produced step passes `Num 7` through unchanged (the
trailing no-op binding mutates nothing). -/
theorem C7_let_intrinsic_witness :
    Step.out_ty ⟨Ty.num, letStepFn [] (some (Variable.noop (egTagOf "$x") .num))⟩
      = egLetBlk.in_ty
    ∧ egLetFinal.output_ty = some egLetBlk.in_ty
    ∧ letStepFn [] (some (Variable.noop (egTagOf "$x") .num)) (.num 7) ⟨[]⟩
      = .ok (.num 7, ([] : Env)) :=
  ⟨(C7_let_intrinsic egLetBlk
      ⟨Ty.num, letStepFn [] (some (Variable.noop (egTagOf "$x") .num))⟩ egLetFinal rfl).1,
   (C7_let_intrinsic egLetBlk
      ⟨Ty.num, letStepFn [] (some (Variable.noop (egTagOf "$x") .num))⟩ egLetFinal rfl).2.1,
   rfl⟩

-- ===== Error printing (err.rs lines 451–485, 712–720, 750–798) ==============

/-- The `colour!`/`colourln!` macros (`err.rs` lines 17–40): apply the
colouring function when `colourize` is on, otherwise write the plain
text. -/
def cw (w : String → String → String) (c : Bool) (colour : String) (s : String) : String :=
  match c with
  | true => w colour s
  | false => s

/-- The category header texts of `Error::print` (`err.rs` lines 459–468). -/
def catHeader : Category → String
  | .Internal => "Internal Error"
  | .Parsing => "Parsing Error"
  | .UnknownCommand => "Unknown Command"
  | .Semantics => "Semantics Error"
  | .Type => "Typing Error"
  | .Evaluation => "Evaluation Error"
  | .Definitions => "Definition Error"
  | .Help => "Help"

/-- The category colours of `Error::print`: `bright_yellow` for `Help`,
`bright_red` otherwise. -/
def catColour : Category → String
  | .Help => "bright_yellow"
  | _ => "bright_red"

/-- `Trace::print` (`err.rs` lines 750–798): the location line, the source
lines and the caret line (drawn when `min < max` over the visible
column ranges, starting from the fold seed `(10000, 0)`). -/
def printTrace (w : String → String → String) (c : Bool) (t : Trace) : String :=
  let src_lines := if t.len > 0 then trace_code_lines t.source t.start (t.start + t.len)
                   else (linesWithOffsets t.source).map (fun x => (x.1, 0, 0))
  let pos := ((src_lines.head?).map (fun x => x.2.1)).getD 0
  let header := cw w c "bright_purple" ("--> " ++ t.loc.render ++ ":" ++ toString pos) ++ "\n"
  let body := String.join (src_lines.map (fun x =>
    cw w c "bright_purple" " | " ++ cw w c "white" x.1.asString ++ "\n"))
  let mm := src_lines.foldl (fun (p : Nat × Nat) x => (min p.1 x.2.1, max p.2 x.2.2)) (10000, 0)
  let carets :=
    if mm.1 < mm.2 then
      cw w c "bright_purple" " | " ++ String.mk (List.replicate mm.1 ' ')
        ++ cw w c "bright_red" (String.mk (List.replicate (mm.2 - mm.1) '^'))
        ++ (match t.desc with
            | some d => cw w c "bright_red" (" " ++ d)
            | none => "") ++ "\n"
    else ""
  header ++ body ++ carets

/-- `Error::print` (`err.rs` lines 451–485): category header, description,
traces, optional help footer. -/
def printError (w : String → String → String) (c : Bool) (e : Error) : String :=
  cw w c (catColour e.cat) (catHeader e.cat)
    ++ cw w c "bright_white" (": " ++ e.desc) ++ "\n"
    ++ String.join (e.traces.map (printTrace w c))
    ++ (match e.help_msg with
        | some h => cw w c "bright_purple" "--> help: " ++ cw w c "yellow" h ++ "\n"
        | none => "")

/-- Modelled from the spec: the external `colored` crate wraps text in ANSI
escape sequences when colouring is applied. -/
def colourWrap (colour s : String) : String := "\x1b[" ++ colour ++ "m" ++ s ++ "\x1b[0m"

/-- `impl fmt::Display for Error` (`err.rs` lines 712–720): print with
`colourize = false` into a buffer and emit that text. -/
def displayError (e : Error) : String := printError colourWrap false e

/-- **C9.**  `Display` for `Error` produces byte-for-byte the text of
`print(colourize = false)`; with colouring off the output is independent
of the colouring function, so no terminal colour escape codes are
emitted; and the rendering is a pure function of the error, hence
deterministic across runs for equal errors. -/
theorem C9_display_print (w1 w2 : String → String → String) (e : Error) :
    displayError e = printError w1 false e
    ∧ printError w1 false e = printError w2 false e :=
  ⟨rfl, rfl⟩
